import Mathlib

/-!
Verification of the change-detection and scheduling engine of the
`astro-prepreproc` directory monitor.

The definitions below are a shallow embedding of the Python sources
`src/prepreproc/actions.py`, `src/prepreproc/monitor.py`,
`src/prepreproc/events.py` and `src/prepreproc/config.py`:

* Python `datetime.datetime` values are embedded as the `DateTime`
  structure (proleptic Gregorian calendar, one field per component);
  `datetime` comparison and `timedelta` addition are embedded through
  the tick count `toTicks` (microseconds since 0001-01-01 00:00:00),
  which agrees with Python's field-lexicographic comparison on all
  valid datetimes.
* Python float `st_mtime` values are embedded as exact integers: the
  engine only ever compares them for equality.
* Python dicts (snapshots) are embedded as association lists together
  with a `NodupKeys` hypothesis (dict keys are unique).
* Exceptions raised by action callbacks are embedded by giving
  callbacks the return type `Except String Unit`; `try/except` blocks
  that swallow the exception become functions that record the outcome
  but never let it influence control flow.
-/

namespace Prepreproc

/-- Embedding of Python `datetime.datetime`: one `Nat` field per component. -/
structure DateTime where
  year : Nat
  month : Nat
  day : Nat
  hour : Nat
  minute : Nat
  second : Nat
  microsecond : Nat
  deriving DecidableEq, Repr

/-- Gregorian leap-year rule, as used by Python's `calendar.isleap`. -/
def isLeap (y : Nat) : Bool :=
  (y % 4 == 0 && y % 100 != 0) || y % 400 == 0

/-- Length of a month, as returned by `calendar.monthrange(year, month)[1]`. -/
def daysInMonth (y m : Nat) : Nat :=
  if m = 2 then (if isLeap y then 29 else 28)
  else if m = 4 ∨ m = 6 ∨ m = 9 ∨ m = 11 then 30
  else 31

/-- Number of days in the months strictly before month `m` (1-based) of year `y`. -/
def daysBeforeMonth (y : Nat) : Nat → Nat
  | 0 => 0
  | m + 1 => daysBeforeMonth y m + (if m = 0 then 0 else daysInMonth y m)

/-- Number of days strictly before January 1 of year `y`, counted from 0001-01-01
(Python's `datetime._days_before_year`). -/
def daysBeforeYear (y : Nat) : Nat :=
  365 * (y - 1) + (y - 1) / 4 - (y - 1) / 100 + (y - 1) / 400

/-- Day index of a datetime: 0 for 0001-01-01 (Python `toordinal() - 1`). -/
def toOrdinal (dt : DateTime) : Nat :=
  daysBeforeYear dt.year + daysBeforeMonth dt.year dt.month + (dt.day - 1)

/-- Python `datetime.weekday()`: Monday = 0 ... Sunday = 6. -/
def pyWeekday (dt : DateTime) : Nat :=
  toOrdinal dt % 7

def ticksPerDay : Nat := 86400000000

/-- Microseconds since 0001-01-01 00:00:00.  On valid datetimes this order
agrees with Python's field-lexicographic `datetime` comparison. -/
def toTicks (dt : DateTime) : Nat :=
  toOrdinal dt * ticksPerDay
    + ((dt.hour * 60 + dt.minute) * 60 + dt.second) * 1000000 + dt.microsecond

/-- The invariant Python's `datetime` constructor enforces on its fields. -/
def Valid (dt : DateTime) : Prop :=
  1 ≤ dt.year ∧ 1 ≤ dt.month ∧ dt.month ≤ 12 ∧ 1 ≤ dt.day ∧
    dt.day ≤ daysInMonth dt.year dt.month ∧
    dt.hour < 24 ∧ dt.minute < 60 ∧ dt.second < 60 ∧ dt.microsecond < 1000000

instance (dt : DateTime) : Decidable (Valid dt) := by
  unfold Valid; infer_instance

/-- Advance a datetime by one calendar day. -/
def addOneDay (dt : DateTime) : DateTime :=
  if dt.day < daysInMonth dt.year dt.month then { dt with day := dt.day + 1 }
  else if dt.month < 12 then { dt with month := dt.month + 1, day := 1 }
  else { dt with year := dt.year + 1, month := 1, day := 1 }

/-- Python `dt + timedelta(days=n)` for a non-negative day count. -/
def addDays (dt : DateTime) : Nat → DateTime
  | 0 => dt
  | n + 1 => addOneDay (addDays dt n)

/-- Python `dt + timedelta(hours=n)`. -/
def addHours (dt : DateTime) (n : Nat) : DateTime :=
  addDays { dt with hour := (dt.hour + n) % 24 } ((dt.hour + n) / 24)

/-- Python `dt + timedelta(minutes=n)`. -/
def addMinutes (dt : DateTime) (n : Nat) : DateTime :=
  addHours { dt with minute := (dt.minute + n) % 60 } ((dt.minute + n) / 60)

/-- Python `dt + timedelta(seconds=n)`. -/
def addSeconds (dt : DateTime) (n : Nat) : DateTime :=
  addMinutes { dt with second := (dt.second + n) % 60 } ((dt.second + n) / 60)

/-- Embedding of Python `datetime.time` as produced by `config._parse_time_field`
(microsecond is always zero there). -/
structure TimeOfDay where
  hour : Nat
  minute : Nat
  second : Nat
  deriving DecidableEq, Repr

/-- Embedding of `config.TriggerType`. -/
inductive TriggerType where
  | event
  | minutely
  | hourly
  | daily
  | weekly
  | monthly
  deriving DecidableEq, Repr

/-- Embedding of `config.ActionTriggerConfig`. -/
structure ActionTriggerConfig where
  type : TriggerType
  time : Option TimeOfDay := none
  weekday : Option Nat := none
  day : Option Nat := none
  minute : Option Nat := none
  deriving DecidableEq, Repr

/-- Midnight, `actions._DEFAULT_TIME`. -/
def defaultTime : TimeOfDay := ⟨0, 0, 0⟩

/-- The range invariant `datetime.time` enforces, guaranteed by
`config._parse_time_field`. -/
def validTOD (t : TimeOfDay) : Bool :=
  t.hour < 24 && t.minute < 60 && t.second < 60

/-- Invariants on a trigger configuration guaranteed by `config`:
`time` holds a valid time of day and `minute` is in `0..59`
(`config._parse_minute_field`). -/
def validTrigger (tr : ActionTriggerConfig) : Bool :=
  (match tr.time with
   | some t => validTOD t
   | none => true) &&
  (match tr.minute with
   | some m => m < 60
   | none => true)

/-- Embedding of `actions._clamped_month_datetime`. -/
def clampedMonthDatetime (year month day : Nat) (timeOfDay : TimeOfDay) : DateTime :=
  let lastDay := daysInMonth year month
  let targetDay := min day lastDay
  ⟨year, month, targetDay, timeOfDay.hour, timeOfDay.minute, timeOfDay.second, 0⟩

/-- Embedding of `reference.replace(hour=t.hour, minute=t.minute, second=t.second, microsecond=0)`:
the shared daily/weekly/monthly candidate base in `actions._compute_next_run`. -/
def setTimeOfDay (reference : DateTime) (t : TimeOfDay) : DateTime :=
  { reference with hour := t.hour, minute := t.minute, second := t.second, microsecond := 0 }

/-- Embedding of `actions._compute_next_run`.  Python `datetime` comparisons (`base <=
reference`) are embedded as comparisons of the tick counts, and
`timedelta` additions as the `add*` functions above. -/
def computeNextRun (trigger : ActionTriggerConfig) (reference : DateTime) :
    Option DateTime :=
  match trigger.type with
  | .event => none
  | .minutely =>
      let second := match trigger.time with
        | some t => t.second
        | none => 0
      let base := { reference with second := second, microsecond := 0 }
      some (if toTicks base ≤ toTicks reference then addMinutes base 1 else base)
  | .hourly =>
      let minute := trigger.minute.getD 0
      let second := match trigger.time with
        | some t => t.second
        | none => 0
      let base := { reference with minute := minute, second := second, microsecond := 0 }
      some (if toTicks base ≤ toTicks reference then addHours base 1 else base)
  | .daily =>
      let timeOfDay := trigger.time.getD defaultTime
      let base := setTimeOfDay reference timeOfDay
      some (if toTicks base ≤ toTicks reference then addDays base 1 else base)
  | .weekly =>
      let timeOfDay := trigger.time.getD defaultTime
      let base := setTimeOfDay reference timeOfDay
      let weekday := trigger.weekday.getD (pyWeekday reference)
      let daysAhead := (((weekday : Int) - (pyWeekday base : Int)) % 7).toNat
      let candidate := addDays base daysAhead
      some (if toTicks candidate ≤ toTicks reference then addDays candidate 7 else candidate)
  | .monthly =>
      let timeOfDay := trigger.time.getD defaultTime
      let base := setTimeOfDay reference timeOfDay
      let day := trigger.day.getD reference.day
      let year := base.year
      let month := base.month
      let candidate := clampedMonthDatetime year month day timeOfDay
      some (if toTicks candidate ≤ toTicks reference then
              (if month + 1 > 12 then clampedMonthDatetime (year + 1) 1 day timeOfDay
               else clampedMonthDatetime year (month + 1) day timeOfDay)
            else candidate)

/-- Embedding of `events.EventType`. -/
inductive EventType where
  | created
  | modified
  | deleted
  | moved
  deriving DecidableEq, Repr

/-- Embedding of `events.FileEvent`.  The `mtime` floats are embedded as exact integers (the
engine only compares them for equality). -/
structure FileEvent where
  eventType : EventType
  path : String
  previousPath : Option String := none
  size : Option Nat := none
  mtime : Option Int := none
  deriving DecidableEq, Repr

/-- Embedding of `Snapshot = Dict[Path, Tuple[float, int]]` as an association
list `path ↦ (mtime, size)` whose keys are unique (`NodupKeys`). -/
abbrev Snapshot := List (String × Int × Nat)

/-- Python `dict.get` / `dict[...]` on a snapshot. -/
def snapLookup (s : Snapshot) (p : String) : Option (Int × Nat) :=
  match s with
  | [] => none
  | (q, v) :: rest => if q = p then some v else snapLookup rest p

/-- Keys of a Python dict are unique. -/
def NodupKeys (s : Snapshot) : Prop :=
  (s.map Prod.fst).Nodup

instance (s : Snapshot) : Decidable (NodupKeys s) := by
  unfold NodupKeys; infer_instance

/-- The created/modified record the first loop of `_diff_snapshots` emits for
one entry of `new` (or `none` when the entry is unchanged). -/
def createdModifiedRecord (old : Snapshot) (entry : String × Int × Nat) :
    Option FileEvent :=
  match snapLookup old entry.1 with
  | none => some { eventType := .created, path := entry.1,
                   size := some entry.2.2, mtime := some entry.2.1 }
  | some (oldMtime, oldSize) =>
      if oldMtime ≠ entry.2.1 ∨ oldSize ≠ entry.2.2 then
        some { eventType := .modified, path := entry.1,
               size := some entry.2.2, mtime := some entry.2.1 }
      else none

/-- The deleted record the second loop of `_diff_snapshots` emits. -/
def deletedRecord (entry : String × Int × Nat) : FileEvent :=
  { eventType := .deleted, path := entry.1,
    size := some entry.2.2, mtime := some entry.2.1 }

/-- Embedding of `actions._diff_snapshots` (and, with identical behaviour,
`monitor._diff_snapshots`): created/modified records in iteration order over
`new`, deleted records appended for entries of `old` absent from `new`
(the `seen` set of the Python code holds exactly the keys of `new`). -/
def diffSnapshots (old new : Snapshot) : List FileEvent :=
  new.filterMap (createdModifiedRecord old) ++
    (old.filter (fun entry => (snapLookup new entry.1).isNone)).map deletedRecord

/-!
### Action registry

Embedding of `actions.Action`, `actions.ActionContext` and the dispatch
methods of `actions.ActionRegistry`.  The registry's mutable per-action state
(`next_run_at`, `previous_snapshot`) is threaded explicitly: dispatch returns
the updated action list together with the list of performed invocations
(action name and callback outcome).  `ActionRegistry._safe_invoke` catches any
exception a callback raises and only logs it; here the outcome is recorded in
the invocation list and never influences the rest of the dispatch.
-/

/-- Embedding of `actions.ActionContext`. -/
structure ActionContext where
  rootPath : String
  snapshot : Snapshot
  event : Option FileEvent := none
  modifiedEvents : List FileEvent := []

/-- Option bags are string-keyed mappings; their values are irrelevant here. -/
abbrev Options := List (String × String)

/-- Embedding of `actions.Action`: callback plus configuration and scheduling state.
A callback returning `Except.error e` models a callback raising exception
`e`. -/
structure MAction where
  name : String
  callback : ActionContext → Options → Except String Unit
  options : Options := []
  trigger : ActionTriggerConfig
  nextRunAt : Option DateTime := none
  previousSnapshot : Option Snapshot := none

/-- Embedding of `Action.is_event_trigger`. -/
def isEventTrigger (a : MAction) : Bool :=
  a.trigger.type == .event

/-- Embedding of `ActionRegistry._safe_invoke` / `Action.invoke`: runs the callback and
returns its outcome; an exception is caught (logged) and not re-raised, so
the caller receives control unconditionally. -/
def safeInvoke (a : MAction) (context : ActionContext) : Except String Unit :=
  a.callback context a.options

/-- Embedding of `ActionRegistry.dispatch_event`: no-op when no event-triggered actions
are registered; otherwise builds one shared context for the change and
invokes every event-triggered action with it.  Returns the invocation
list (the registry state is not modified by event dispatch). -/
def dispatchEvent (actions : List MAction) (event : FileEvent)
    (rootPath : String) (snapshot : Snapshot) :
    List (String × Except String Unit) :=
  let eventActions := actions.filter isEventTrigger
  if eventActions.isEmpty then []
  else
    let context : ActionContext :=
      { rootPath := rootPath, snapshot := snapshot, event := some event }
    eventActions.map fun a => (a.name, safeInvoke a context)

/-- The loop body of `ActionRegistry.dispatch_scheduled` for one scheduled
action: refill a missing `next_run_at`, skip when not due, otherwise diff
against the action's own baseline, invoke the callback through
`_safe_invoke`, replace `previous_snapshot` and reschedule from
`now + timedelta(seconds=1)`. -/
def stepScheduled (now : DateTime) (rootPath : String) (snapshot : Snapshot)
    (a : MAction) : MAction × List (String × Except String Unit) :=
  let a := match a.nextRunAt with
    | none => { a with nextRunAt := computeNextRun a.trigger now }
    | some _ => a
  match a.nextRunAt with
  | none => (a, [])
  | some t =>
      if toTicks now < toTicks t then (a, [])
      else
        let modifiedEvents := match a.previousSnapshot with
          | some prev => diffSnapshots prev snapshot
          | none => []
        let context : ActionContext :=
          { rootPath := rootPath, snapshot := snapshot,
            modifiedEvents := modifiedEvents }
        let result := safeInvoke a context
        ({ a with previousSnapshot := some snapshot,
                  nextRunAt := computeNextRun a.trigger (addSeconds now 1) },
         [(a.name, result)])

/-- Embedding of `ActionRegistry.dispatch_scheduled`: runs the loop body over the
registry's scheduled (non-event) actions, returning their updated state and
the invocations performed. -/
def dispatchScheduled (actions : List MAction) (now : DateTime)
    (rootPath : String) (snapshot : Snapshot) :
    List MAction × List (String × Except String Unit) :=
  let scheduled := actions.filter (fun a => ! isEventTrigger a)
  let results := scheduled.map (stepScheduled now rootPath snapshot)
  (results.map Prod.fst, results.flatMap Prod.snd)

/-!
### Scanner filename filtering

`monitor._matches_patterns` delegates glob matching to Python's
`fnmatch.fnmatch`.  The filter structure is embedded parametrically in the
matcher; `globMatch` below is a concrete executable model of `fnmatch` for
patterns built from literal characters, `*` and `?` (character classes are
not needed by any statement here), used for concrete evaluations.
-/

/-- Glob matching for `*`, `?` and literal characters: an executable model of
`fnmatch.fnmatch(s, p)` on a case-sensitive filesystem for patterns without
character classes (`*` matches any run of characters, `?` any single
character). -/
def globMatch (s p : List Char) : Bool :=
  match p with
  | [] => s.isEmpty
  | c :: ps =>
      if c = '*' then s.tails.any (fun t => globMatch t ps)
      else
        match s with
        | [] => false
        | d :: ds => if c = '?' then globMatch ds ps else d = c && globMatch ds ps

/-- Embedding of `fnmatch.fnmatch(filename, pattern)` (restricted as in `globMatch`). -/
def fnmatchSimple (filename pattern : String) : Bool :=
  globMatch filename.toList pattern.toList

/-- The characters after the last `'/'` of a path (all of them when there is
no slash). -/
def afterLastSlash (cs : List Char) : List Char :=
  cs.foldl (fun acc c => if c = '/' then [] else acc ++ [c]) []

/-- Embedding of `pathlib.Path.name`: the final path component. -/
def pathName (s : String) : String :=
  String.mk (afterLastSlash s.toList)

/-- Embedding of `monitor._matches_patterns`, parametric in the glob matcher `fnm`
(λ filename pattern).  `path` is the string form of the `Path` object the
scan produced (`rel_from_root = str(path)` in the source); `relative` is
`path.name`. -/
def matchesPatterns (fnm : String → String → Bool) (path : String)
    (includePatterns excludePatterns : List String) : Bool :=
  let relative := pathName path
  let relFromRoot := path
  if !excludePatterns.isEmpty &&
      excludePatterns.any (fun pat => fnm relative pat || fnm relFromRoot pat) then
    false
  else if includePatterns.isEmpty then
    true
  else
    includePatterns.any (fun pat => fnm relative pat || fnm relFromRoot pat)

/-- The filtering step of `DirectoryMonitor._scan` for one regular file:
the scanned `Path` objects come from `root.rglob(...)`, so their string form
is the root joined with the file's path relative to the root. -/
def scanKeeps (fnm : String → String → Bool) (root relToRoot : String)
    (includePatterns excludePatterns : List String) : Bool :=
  matchesPatterns fnm (root ++ "/" ++ relToRoot) includePatterns excludePatterns

/-- The filter as the specification describes it: matching applied to the
path relative to the root (`relToRoot`) or the bare filename.  Used to compare
the specified behaviour with `scanKeeps`. -/
def scanKeepsSpecRelative (fnm : String → String → Bool) (relToRoot : String)
    (includePatterns excludePatterns : List String) : Bool :=
  matchesPatterns fnm relToRoot includePatterns excludePatterns

/-- Concrete scheduling inputs used by witnesses: a daily-09:00 trigger due
exactly at the reference instant. -/
def witnessTrigger : ActionTriggerConfig :=
  ⟨.daily, some ⟨9, 0, 0⟩, none, none, none⟩

def witnessNow : DateTime := ⟨2025, 1, 1, 9, 0, 0, 0⟩

/-- A time-triggered action whose callback always raises. -/
def witnessAction1 : MAction :=
  { name := "first", callback := fun _ _ => Except.error "boom",
    trigger := witnessTrigger, nextRunAt := some witnessNow }

/-- A time-triggered action whose callback succeeds. -/
def witnessAction2 : MAction :=
  { name := "second", callback := fun _ _ => Except.ok (),
    trigger := witnessTrigger, nextRunAt := some witnessNow }

def witnessSnap : Snapshot := [("a.txt", (1, 10))]

theorem daysInMonth_pos (y m : Nat) : 1 ≤ daysInMonth y m := by
  unfold daysInMonth
  split
  · split <;> omega
  · split <;> omega

theorem daysInMonth_le_31 (y m : Nat) : daysInMonth y m ≤ 31 := by
  unfold daysInMonth
  split
  · split <;> omega
  · split <;> omega

theorem daysBeforeMonth_succ (y m : Nat) (hm : 1 ≤ m) :
    daysBeforeMonth y (m + 1) = daysBeforeMonth y m + daysInMonth y m := by
  match m, hm with
  | k + 1, _ => simp [daysBeforeMonth]

theorem daysBeforeMonth_13 (y : Nat) :
    daysBeforeMonth y 13 = 337 + daysInMonth y 2 := by
  show daysBeforeMonth y (12 + 1) = _
  simp [daysBeforeMonth, daysInMonth]
  omega

theorem isLeap_iff (y : Nat) :
    isLeap y = true ↔ ((y % 4 = 0 ∧ ¬ y % 100 = 0) ∨ y % 400 = 0) := by
  simp [isLeap, Bool.or_eq_true, Bool.and_eq_true]

theorem daysInMonth_2_leap (y : Nat) (h : isLeap y = true) : daysInMonth y 2 = 29 := by
  simp [daysInMonth, h]

theorem daysInMonth_2_nonleap (y : Nat) (h : isLeap y = false) : daysInMonth y 2 = 28 := by
  simp [daysInMonth, h]

set_option maxHeartbeats 1600000 in
theorem daysBeforeYear_succ (y : Nat) (hy : 1 ≤ y) :
    daysBeforeYear (y + 1) = daysBeforeYear y + 337 + daysInMonth y 2 := by
  unfold daysBeforeYear
  cases h : isLeap y with
  | true =>
      rw [daysInMonth_2_leap y h]
      rw [isLeap_iff] at h
      rcases h with ⟨h4, h100⟩ | h400 <;> omega
  | false =>
      rw [daysInMonth_2_nonleap y h]
      have h' : ¬ ((y % 4 = 0 ∧ ¬ y % 100 = 0) ∨ y % 400 = 0) := by
        intro hc
        have hT := (isLeap_iff y).mpr hc
        rw [h] at hT
        exact Bool.false_ne_true hT
      push_neg at h'
      omega

/-- Advancing one calendar day adds exactly one to the day index. -/
theorem toOrdinal_addOneDay (dt : DateTime) (h : Valid dt) :
    toOrdinal (addOneDay dt) = toOrdinal dt + 1 := by
  obtain ⟨hy, hm1, hm12, hd1, hdM, _, _, _, _⟩ := h
  unfold addOneDay
  by_cases hlt : dt.day < daysInMonth dt.year dt.month
  · simp only [if_pos hlt, toOrdinal]
    omega
  · have hdeq : dt.day = daysInMonth dt.year dt.month := by omega
    by_cases hm : dt.month < 12
    · simp only [if_neg hlt, if_pos hm, toOrdinal]
      rw [daysBeforeMonth_succ dt.year dt.month hm1]
      have := daysInMonth_pos dt.year dt.month
      omega
    · have hmeq : dt.month = 12 := by omega
      simp only [if_neg hlt, if_neg hm, toOrdinal]
      have h13 := daysBeforeMonth_13 dt.year
      have hstep : daysBeforeMonth dt.year 13
          = daysBeforeMonth dt.year 12 + daysInMonth dt.year 12 :=
        daysBeforeMonth_succ dt.year 12 (by omega)
      have hyr := daysBeforeYear_succ dt.year hy
      have h1 : daysBeforeMonth (dt.year + 1) 1 = 0 := by
        simp [daysBeforeMonth]
      rw [hmeq] at hdeq
      rw [hmeq, h1, hyr]
      have hpos := daysInMonth_pos dt.year 12
      omega

theorem Valid_addOneDay (dt : DateTime) (h : Valid dt) : Valid (addOneDay dt) := by
  obtain ⟨hy, hm1, hm12, hd1, hdM, hh, hmin, hs, hus⟩ := h
  have p1 := daysInMonth_pos dt.year (dt.month + 1)
  have p2 := daysInMonth_pos (dt.year + 1) 1
  unfold addOneDay
  by_cases hlt : dt.day < daysInMonth dt.year dt.month
  · simp only [if_pos hlt, Valid]
    exact ⟨hy, hm1, hm12, by omega, by omega, hh, hmin, hs, hus⟩
  · by_cases hm : dt.month < 12
    · simp only [if_neg hlt, if_pos hm, Valid]
      exact ⟨hy, by omega, by omega, by omega, by omega, hh, hmin, hs, hus⟩
    · simp only [if_neg hlt, if_neg hm, Valid]
      exact ⟨by omega, by omega, by omega, by omega, by omega, hh, hmin, hs, hus⟩

theorem toTicks_addOneDay (dt : DateTime) (h : Valid dt) :
    toTicks (addOneDay dt) = toTicks dt + ticksPerDay := by
  have hord := toOrdinal_addOneDay dt h
  have htime : ((addOneDay dt).hour * 60 + (addOneDay dt).minute) * 60
        + (addOneDay dt).second = (dt.hour * 60 + dt.minute) * 60 + dt.second ∧
      (addOneDay dt).microsecond = dt.microsecond := by
    unfold addOneDay
    split
    · simp
    · split <;> simp
  unfold toTicks
  rw [hord, htime.1, htime.2]
  ring

theorem Valid_addDays (dt : DateTime) (n : Nat) (h : Valid dt) : Valid (addDays dt n) := by
  induction n with
  | zero => exact h
  | succ k ih => exact Valid_addOneDay _ ih

theorem toTicks_addDays (dt : DateTime) (n : Nat) (h : Valid dt) :
    toTicks (addDays dt n) = toTicks dt + n * ticksPerDay := by
  induction n with
  | zero => simp [addDays]
  | succ k ih =>
      show toTicks (addOneDay (addDays dt k)) = _
      rw [toTicks_addOneDay _ (Valid_addDays dt k h), ih]
      ring

theorem Valid_addHours (dt : DateTime) (n : Nat) (h : Valid dt) : Valid (addHours dt n) := by
  obtain ⟨hy, hm1, hm12, hd1, hdM, hh, hmin, hs, hus⟩ := h
  exact Valid_addDays _ _ ⟨hy, hm1, hm12, hd1, hdM, Nat.mod_lt _ (by norm_num), hmin, hs, hus⟩

theorem toTicks_addHours (dt : DateTime) (n : Nat) (h : Valid dt) :
    toTicks (addHours dt n) = toTicks dt + n * 3600000000 := by
  obtain ⟨hy, hm1, hm12, hd1, hdM, hh, hmin, hs, hus⟩ := h
  unfold addHours
  rw [toTicks_addDays { dt with hour := (dt.hour + n) % 24 } ((dt.hour + n) / 24)
    ⟨hy, hm1, hm12, hd1, hdM, Nat.mod_lt _ (by norm_num), hmin, hs, hus⟩]
  simp only [toTicks, toOrdinal, ticksPerDay]
  omega

theorem Valid_addMinutes (dt : DateTime) (n : Nat) (h : Valid dt) : Valid (addMinutes dt n) := by
  obtain ⟨hy, hm1, hm12, hd1, hdM, hh, hmin, hs, hus⟩ := h
  exact Valid_addHours _ _ ⟨hy, hm1, hm12, hd1, hdM, hh, Nat.mod_lt _ (by norm_num), hs, hus⟩

theorem toTicks_addMinutes (dt : DateTime) (n : Nat) (h : Valid dt) :
    toTicks (addMinutes dt n) = toTicks dt + n * 60000000 := by
  obtain ⟨hy, hm1, hm12, hd1, hdM, hh, hmin, hs, hus⟩ := h
  unfold addMinutes
  rw [toTicks_addHours { dt with minute := (dt.minute + n) % 60 } ((dt.minute + n) / 60)
    ⟨hy, hm1, hm12, hd1, hdM, hh, Nat.mod_lt _ (by norm_num), hs, hus⟩]
  simp only [toTicks, toOrdinal, ticksPerDay]
  omega

theorem Valid_addSeconds (dt : DateTime) (n : Nat) (h : Valid dt) : Valid (addSeconds dt n) := by
  obtain ⟨hy, hm1, hm12, hd1, hdM, hh, hmin, hs, hus⟩ := h
  exact Valid_addMinutes _ _ ⟨hy, hm1, hm12, hd1, hdM, hh, hmin, Nat.mod_lt _ (by norm_num), hus⟩

theorem toTicks_addSeconds (dt : DateTime) (n : Nat) (h : Valid dt) :
    toTicks (addSeconds dt n) = toTicks dt + n * 1000000 := by
  obtain ⟨hy, hm1, hm12, hd1, hdM, hh, hmin, hs, hus⟩ := h
  unfold addSeconds
  rw [toTicks_addMinutes { dt with second := (dt.second + n) % 60 } ((dt.second + n) / 60)
    ⟨hy, hm1, hm12, hd1, hdM, hh, hmin, Nat.mod_lt _ (by norm_num), hus⟩]
  simp only [toTicks, toOrdinal, ticksPerDay]
  omega

/-- The sub-day part of the tick count is below one day's worth of ticks. -/
theorem timeTicks_lt (dt : DateTime) (h : Valid dt) :
    ((dt.hour * 60 + dt.minute) * 60 + dt.second) * 1000000 + dt.microsecond < ticksPerDay := by
  obtain ⟨_, _, _, _, _, hh, hmin, hs, hus⟩ := h
  unfold ticksPerDay
  omega

theorem Valid_setTimeOfDay (r : DateTime) (t : TimeOfDay) (hr : Valid r)
    (ht : validTOD t = true) : Valid (setTimeOfDay r t) := by
  obtain ⟨hy, hm1, hm12, hd1, hdM, _, _, _, _⟩ := hr
  simp only [validTOD, Bool.and_eq_true, decide_eq_true_eq] at ht
  exact ⟨hy, hm1, hm12, hd1, hdM, ht.1.1, ht.1.2, ht.2, by simp [setTimeOfDay]⟩

theorem setTimeOfDay_year (r : DateTime) (t : TimeOfDay) :
    (setTimeOfDay r t).year = r.year := rfl

theorem setTimeOfDay_month (r : DateTime) (t : TimeOfDay) :
    (setTimeOfDay r t).month = r.month := rfl

/-- Any valid datetime lies strictly before the start of the next day. -/
theorem toTicks_lt_next_day (r : DateTime) (hr : Valid r) :
    toTicks r < toOrdinal r * ticksPerDay + ticksPerDay := by
  have h := timeTicks_lt r hr
  unfold toTicks
  omega

/-- Core scheduler property behind `_compute_next_run`: for every non-event
trigger and every valid reference, the computed next run exists and lies
strictly after the reference. -/
theorem computeNextRun_gt (trigger : ActionTriggerConfig) (r : DateTime)
    (hr : Valid r) (ht : validTrigger trigger = true) (hne : trigger.type ≠ .event) :
    ∃ next, computeNextRun trigger r = some next ∧ toTicks r < toTicks next := by
  obtain ⟨hy, hm1, hm12, hd1, hdM, hh, hmin, hs, hus⟩ := hr
  have hrv : Valid r := ⟨hy, hm1, hm12, hd1, hdM, hh, hmin, hs, hus⟩
  have htod : validTOD (trigger.time.getD defaultTime) = true := by
    cases htime : trigger.time with
    | none => decide
    | some t =>
        simp only [validTrigger, htime, Bool.and_eq_true] at ht
        simpa using ht.1
  cases htt : trigger.type with
  | event => exact absurd htt hne
  | minutely =>
      have hsec : (match trigger.time with
          | some t => t.second
          | none => 0) < 60 := by
        cases htime : trigger.time with
        | none => norm_num
        | some t =>
            simp only [validTrigger, htime, Bool.and_eq_true] at ht
            simp only [validTOD, Bool.and_eq_true, decide_eq_true_eq] at ht
            exact ht.1.2
      simp only [computeNextRun, htt]
      set s := (match trigger.time with
        | some t => t.second
        | none => 0) with hsdef
      have hbase : Valid { r with second := s, microsecond := 0 } :=
        ⟨hy, hm1, hm12, hd1, hdM, hh, hmin, hsec, by norm_num⟩
      have hticks := toTicks_addMinutes { r with second := s, microsecond := 0 } 1 hbase
      refine ⟨_, rfl, ?_⟩
      by_cases hc : toTicks { r with second := s, microsecond := 0 } ≤ toTicks r
      · rw [if_pos hc, hticks]
        simp only [toTicks, toOrdinal]
        omega
      · rw [if_neg hc]
        omega
  | hourly =>
      have hsec : (match trigger.time with
          | some t => t.second
          | none => 0) < 60 := by
        cases htime : trigger.time with
        | none => norm_num
        | some t =>
            simp only [validTrigger, htime, Bool.and_eq_true] at ht
            simp only [validTOD, Bool.and_eq_true, decide_eq_true_eq] at ht
            exact ht.1.2
      have hmin60 : trigger.minute.getD 0 < 60 := by
        cases hmm : trigger.minute with
        | none => norm_num
        | some m =>
            simp only [validTrigger, hmm, Bool.and_eq_true, decide_eq_true_eq] at ht
            simpa using ht.2
      simp only [computeNextRun, htt]
      set s := (match trigger.time with
        | some t => t.second
        | none => 0) with hsdef
      set mi := trigger.minute.getD 0 with hmidef
      have hbase : Valid { r with minute := mi, second := s, microsecond := 0 } :=
        ⟨hy, hm1, hm12, hd1, hdM, hh, hmin60, hsec, by norm_num⟩
      have hticks := toTicks_addHours { r with minute := mi, second := s, microsecond := 0 } 1 hbase
      refine ⟨_, rfl, ?_⟩
      by_cases hc : toTicks { r with minute := mi, second := s, microsecond := 0 } ≤ toTicks r
      · rw [if_pos hc, hticks]
        simp only [toTicks, toOrdinal]
        omega
      · rw [if_neg hc]
        omega
  | daily =>
      simp only [computeNextRun, htt]
      set tod := trigger.time.getD defaultTime with htoddef
      have hbase : Valid (setTimeOfDay r tod) := Valid_setTimeOfDay r tod hrv htod
      have hticks := toTicks_addDays (setTimeOfDay r tod) 1 hbase
      have hnd := toTicks_lt_next_day r hrv
      have hords : toOrdinal (setTimeOfDay r tod) = toOrdinal r := rfl
      have hlow : toOrdinal r * ticksPerDay ≤ toTicks (setTimeOfDay r tod) := by
        rw [← hords]
        unfold toTicks
        omega
      refine ⟨_, rfl, ?_⟩
      by_cases hc : toTicks (setTimeOfDay r tod) ≤ toTicks r
      · rw [if_pos hc, hticks]
        omega
      · rw [if_neg hc]
        omega
  | weekly =>
      simp only [computeNextRun, htt]
      set tod := trigger.time.getD defaultTime with htoddef
      have hbase : Valid (setTimeOfDay r tod) := Valid_setTimeOfDay r tod hrv htod
      set k := ((((trigger.weekday.getD (pyWeekday r)) : Int)
        - (pyWeekday (setTimeOfDay r tod) : Int)) % 7).toNat with hkdef
      have hcand : Valid (addDays (setTimeOfDay r tod) k) := Valid_addDays _ k hbase
      have ht1 := toTicks_addDays (setTimeOfDay r tod) k hbase
      have ht2 := toTicks_addDays (addDays (setTimeOfDay r tod) k) 7 hcand
      have hnd := toTicks_lt_next_day r hrv
      have hords : toOrdinal (setTimeOfDay r tod) = toOrdinal r := rfl
      have hlow : toOrdinal r * ticksPerDay ≤ toTicks (setTimeOfDay r tod) := by
        rw [← hords]
        unfold toTicks
        omega
      refine ⟨_, rfl, ?_⟩
      by_cases hc : toTicks (addDays (setTimeOfDay r tod) k) ≤ toTicks r
      · rw [if_pos hc, ht2, ht1]
        unfold ticksPerDay at *
        omega
      · rw [if_neg hc]
        omega
  | monthly =>
      simp only [computeNextRun, htt, setTimeOfDay_year, setTimeOfDay_month]
      set tod := trigger.time.getD defaultTime with htoddef
      set d := trigger.day.getD r.day with hddef
      have hnd := toTicks_lt_next_day r hrv
      refine ⟨_, rfl, ?_⟩
      by_cases hc : toTicks (clampedMonthDatetime r.year r.month d tod) ≤ toTicks r
      · rw [if_pos hc]
        by_cases h12 : r.month + 1 > 12
        · have hmeq : r.month = 12 := by omega
          rw [if_pos h12]
          have hyr := daysBeforeYear_succ r.year hy
          have h13 := daysBeforeMonth_13 r.year
          have hstep : daysBeforeMonth r.year 13
              = daysBeforeMonth r.year 12 + daysInMonth r.year 12 :=
            daysBeforeMonth_succ r.year 12 (by omega)
          have hord2 : toOrdinal r < toOrdinal (clampedMonthDatetime (r.year + 1) 1 d tod) := by
            simp only [toOrdinal, clampedMonthDatetime]
            have h1 : daysBeforeMonth (r.year + 1) 1 = 0 := by
              simp [daysBeforeMonth]
            rw [hmeq] at hdM
            rw [hmeq, h1]
            omega
          calc toTicks r < toOrdinal r * ticksPerDay + ticksPerDay := hnd
            _ ≤ toOrdinal (clampedMonthDatetime (r.year + 1) 1 d tod) * ticksPerDay := by
                have : toOrdinal r + 1 ≤ toOrdinal (clampedMonthDatetime (r.year + 1) 1 d tod) := hord2
                calc toOrdinal r * ticksPerDay + ticksPerDay
                    = (toOrdinal r + 1) * ticksPerDay := by ring
                  _ ≤ _ := Nat.mul_le_mul_right _ this
            _ ≤ toTicks (clampedMonthDatetime (r.year + 1) 1 d tod) := by
                unfold toTicks
                omega
        · have hmlt : r.month < 12 := by omega
          rw [if_neg h12]
          have hstep : daysBeforeMonth r.year (r.month + 1)
              = daysBeforeMonth r.year r.month + daysInMonth r.year r.month :=
            daysBeforeMonth_succ r.year r.month hm1
          have hord2 : toOrdinal r < toOrdinal (clampedMonthDatetime r.year (r.month + 1) d tod) := by
            simp only [toOrdinal, clampedMonthDatetime]
            rw [hstep]
            omega
          calc toTicks r < toOrdinal r * ticksPerDay + ticksPerDay := hnd
            _ ≤ toOrdinal (clampedMonthDatetime r.year (r.month + 1) d tod) * ticksPerDay := by
                have h2 : toOrdinal r + 1 ≤ toOrdinal (clampedMonthDatetime r.year (r.month + 1) d tod) := hord2
                calc toOrdinal r * ticksPerDay + ticksPerDay
                    = (toOrdinal r + 1) * ticksPerDay := by ring
                  _ ≤ _ := Nat.mul_le_mul_right _ h2
            _ ≤ toTicks (clampedMonthDatetime r.year (r.month + 1) d tod) := by
                unfold toTicks
                omega
      · rw [if_neg hc]
        omega

theorem snapLookup_eq_some_of_mem (s : Snapshot) (p : String) (v : Int × Nat)
    (hnd : NodupKeys s) (hmem : (p, v) ∈ s) : snapLookup s p = some v := by
  induction s with
  | nil => cases hmem
  | cons e t ih =>
      obtain ⟨q, w⟩ := e
      rw [NodupKeys, List.map_cons, List.nodup_cons] at hnd
      rcases List.mem_cons.mp hmem with heq | htail
      · obtain ⟨hp, hv⟩ := Prod.mk.injEq .. ▸ heq
        injection heq with h1
        simp_all [snapLookup]
      · have hne : q ≠ p := by
          intro hqp
          subst hqp
          exact hnd.1 (List.mem_map.mpr ⟨(q, v), htail, rfl⟩)
        simp only [snapLookup, if_neg hne]
        exact ih hnd.2 htail

theorem snapLookup_isSome_of_mem (s : Snapshot) (entry : String × Int × Nat)
    (hmem : entry ∈ s) : (snapLookup s entry.1).isSome := by
  induction s with
  | nil => cases hmem
  | cons e t ih =>
      obtain ⟨q, w⟩ := e
      rcases List.mem_cons.mp hmem with heq | htail
      · subst heq
        simp [snapLookup]
      · by_cases hq : q = entry.1
        · simp [snapLookup, hq]
        · simp only [snapLookup, if_neg hq]
          exact ih htail

theorem snapLookup_eq_none_of_not_mem_keys (s : Snapshot) (p : String)
    (h : p ∉ s.map Prod.fst) : snapLookup s p = none := by
  induction s with
  | nil => rfl
  | cons e t ih =>
      obtain ⟨q, w⟩ := e
      simp only [List.map_cons, List.mem_cons] at h
      push_neg at h
      simp only [snapLookup]
      rw [if_neg (Ne.symm h.1)]
      exact ih h.2

theorem createdModifiedRecord_path (old : Snapshot) (entry : String × Int × Nat)
    (ev : FileEvent) (h : createdModifiedRecord old entry = some ev) :
    ev.path = entry.1 := by
  unfold createdModifiedRecord at h
  split at h
  · injection h with h
    subst h
    rfl
  · split at h
    · injection h with h
      subst h
      rfl
    · cases h

theorem snapLookup_cons_self (q : String) (w : Int × Nat) (t : Snapshot) :
    snapLookup ((q, w) :: t) q = some w := by
  simp [snapLookup]

theorem snapLookup_cons_ne (q p : String) (w : Int × Nat) (t : Snapshot)
    (h : q ≠ p) : snapLookup ((q, w) :: t) p = snapLookup t p := by
  simp [snapLookup, h]

theorem filterMap_cm_filter_path (old : Snapshot) (new : Snapshot)
    (hn : NodupKeys new) (p : String) :
    (new.filterMap (createdModifiedRecord old)).filter (fun ev => ev.path == p) =
      (match snapLookup new p with
       | some v => (createdModifiedRecord old (p, v)).toList
       | none => []) := by
  induction new with
  | nil => rfl
  | cons e t ih =>
      obtain ⟨q, w⟩ := e
      rw [NodupKeys, List.map_cons, List.nodup_cons] at hn
      have iht := ih hn.2
      by_cases hq : q = p
      · subst hq
        rw [snapLookup_cons_self]
        have hnone : snapLookup t q = none :=
          snapLookup_eq_none_of_not_mem_keys t q hn.1
        rw [hnone] at iht
        rcases hf : createdModifiedRecord old (q, w) with _ | ev
        · rw [List.filterMap_cons_none hf, iht]
          simp [hf]
        · have hpath : ev.path = q := createdModifiedRecord_path old (q, w) ev hf
          rw [List.filterMap_cons_some hf,
            List.filter_cons_of_pos (by rw [hpath]; exact beq_self_eq_true q),
            iht]
          simp [hf]
      · rw [snapLookup_cons_ne q p w t hq]
        rcases hf : createdModifiedRecord old (q, w) with _ | ev
        · rw [List.filterMap_cons_none hf, iht]
        · have hpath : ev.path = q := createdModifiedRecord_path old (q, w) ev hf
          rw [List.filterMap_cons_some hf,
            List.filter_cons_of_neg (by rw [hpath]; simp [hq]),
            iht]

theorem deleted_filter_path (old : Snapshot) (new : Snapshot)
    (ho : NodupKeys old) (p : String) :
    (((old.filter (fun entry => (snapLookup new entry.1).isNone)).map
        deletedRecord).filter (fun ev => ev.path == p)) =
      (match snapLookup old p, snapLookup new p with
       | some v, none => [deletedRecord (p, v)]
       | _, _ => []) := by
  induction old with
  | nil =>
      cases snapLookup new p <;> rfl
  | cons e t ih =>
      obtain ⟨q, w⟩ := e
      rw [NodupKeys, List.map_cons, List.nodup_cons] at ho
      have iht := ih ho.2
      by_cases hq : q = p
      · subst hq
        rw [snapLookup_cons_self]
        have hnone : snapLookup t q = none :=
          snapLookup_eq_none_of_not_mem_keys t q ho.1
        rw [hnone] at iht
        rcases hl : snapLookup new q with _ | v
        · rw [hl] at iht
          rw [List.filter_cons_of_pos (by simp [hl]), List.map_cons,
            List.filter_cons_of_pos (by simp [deletedRecord]), iht]
        · rw [hl] at iht
          rw [List.filter_cons_of_neg (by simp [hl]), iht]
      · rw [snapLookup_cons_ne q p w t hq]
        rcases hi : (snapLookup new q).isNone with _ | _
        · rw [List.filter_cons_of_neg (by simp [hi]), iht]
        · rw [List.filter_cons_of_pos (by simp [hi]), List.map_cons,
            List.filter_cons_of_neg (by simp [deletedRecord, hq]), iht]

/-- Per-path characterisation of `_diff_snapshots`: what the diff emits for a
single path, as a function of the two lookups. -/
theorem diff_filter_path (old new : Snapshot) (ho : NodupKeys old)
    (hn : NodupKeys new) (p : String) :
    (diffSnapshots old new).filter (fun ev => ev.path == p) =
      (match snapLookup new p, snapLookup old p with
       | some v, none =>
           [{ eventType := .created, path := p, size := some v.2, mtime := some v.1 }]
       | some v, some ov =>
           if ov.1 ≠ v.1 ∨ ov.2 ≠ v.2 then
             [{ eventType := .modified, path := p, size := some v.2, mtime := some v.1 }]
           else []
       | none, some ov =>
           [{ eventType := .deleted, path := p, size := some ov.2, mtime := some ov.1 }]
       | none, none => []) := by
  unfold diffSnapshots
  rw [List.filter_append, filterMap_cm_filter_path old new hn p,
    deleted_filter_path old new ho p]
  rcases hln : snapLookup new p with _ | v <;> rcases hlo : snapLookup old p with _ | ov
  · rfl
  · simp [deletedRecord]
  · simp [createdModifiedRecord, hlo]
  · obtain ⟨omt, osz⟩ := ov
    obtain ⟨mt, sz⟩ := v
    by_cases hc : omt ≠ mt ∨ osz ≠ sz
    · simp [createdModifiedRecord, hlo, hc]
    · simp [createdModifiedRecord, hlo, hc]

/-- Diffing a snapshot against itself yields no events at all. -/
theorem diffSnapshots_self_eq_nil (s : Snapshot) (h : NodupKeys s) :
    diffSnapshots s s = [] := by
  unfold diffSnapshots
  have h1 : s.filterMap (createdModifiedRecord s) = [] := by
    rw [List.filterMap_eq_nil_iff]
    intro entry hmem
    obtain ⟨p, v⟩ := entry
    unfold createdModifiedRecord
    rw [snapLookup_eq_some_of_mem s p v h hmem]
    simp
  have h2 : s.filter (fun entry => (snapLookup s entry.1).isNone) = [] := by
    rw [List.filter_eq_nil_iff]
    intro entry hmem
    have hsome := snapLookup_isSome_of_mem s entry hmem
    simp [Option.isNone, Option.isSome] at hsome ⊢
    rcases hl : snapLookup s entry.1 with _ | v
    · rw [hl] at hsome
      cases hsome
    · simp
  rw [h1, h2]
  rfl

/-- Evaluation of the scheduled-dispatch loop body on a due action. -/
theorem stepScheduled_due (now : DateTime) (root : String) (snap : Snapshot)
    (a : MAction) (t : DateTime) (ht : a.nextRunAt = some t)
    (hdue : toTicks t ≤ toTicks now) :
    stepScheduled now root snap a =
      ({ a with previousSnapshot := some snap,
                nextRunAt := computeNextRun a.trigger (addSeconds now 1) },
       [(a.name, safeInvoke a
          { rootPath := root, snapshot := snap,
            modifiedEvents := match a.previousSnapshot with
              | some prev => diffSnapshots prev snap
              | none => [] })]) := by
  simp only [stepScheduled, ht]
  rw [if_neg (by omega)]

/-- The scheduled-dispatch loop body leaves an action that is not yet due
untouched and performs no invocation. -/
theorem stepScheduled_not_due (now : DateTime) (root : String) (snap : Snapshot)
    (a : MAction) (t : DateTime) (ht : a.nextRunAt = some t)
    (hfuture : toTicks now < toTicks t) :
    stepScheduled now root snap a = (a, []) := by
  simp only [stepScheduled, ht]
  rw [if_pos hfuture]

/-- Dispatch processes the scheduled actions independently: the state updates
and invocation list are the concatenation of the per-action results. -/
theorem dispatchScheduled_eq (actions : List MAction) (now : DateTime)
    (root : String) (snap : Snapshot) :
    dispatchScheduled actions now root snap =
      ((actions.filter (fun a => ! isEventTrigger a)).map
          (fun a => (stepScheduled now root snap a).1),
        (actions.filter (fun a => ! isEventTrigger a)).flatMap
          (fun a => (stepScheduled now root snap a).2)) := by
  simp only [dispatchScheduled, List.map_map, List.flatMap_map, Function.comp]
  rfl

/-- A due action's trigger type, extracted from `isEventTrigger`. -/
theorem isEventTrigger_false_ne (a : MAction) (h : isEventTrigger a = false) :
    a.trigger.type ≠ .event := by
  intro hc
  rw [isEventTrigger, hc] at h
  cases h

/-- The rescheduling reference `now + timedelta(seconds=1)` lies strictly
after `now`, and schedules computed from it lie strictly after `now` too. -/
theorem computeNextRun_after_epsilon (tr : ActionTriggerConfig) (now : DateTime)
    (hv : Valid now) (hvt : validTrigger tr = true) (hne : tr.type ≠ .event) :
    ∃ next, computeNextRun tr (addSeconds now 1) = some next ∧
      toTicks now < toTicks next := by
  obtain ⟨next, hrun, hgt⟩ :=
    computeNextRun_gt tr (addSeconds now 1) (Valid_addSeconds now 1 hv) hvt hne
  refine ⟨next, hrun, ?_⟩
  have := toTicks_addSeconds now 1 hv
  omega

/-!
### Claim theorems
-/

/-- C1: for every trigger whose type is Minutely, Hourly, Daily, Weekly or
Monthly (not Event) and every valid reference instant, `_compute_next_run`
returns an instant strictly greater than the reference (never equal, never in
the past). -/
theorem C1_next_run_strictly_future (trigger : ActionTriggerConfig)
    (r : DateTime) (hr : Valid r) (ht : validTrigger trigger = true)
    (hne : trigger.type ≠ .event) :
    ∃ next, computeNextRun trigger r = some next ∧ toTicks r < toTicks next :=
  computeNextRun_gt trigger r hr ht hne

theorem C1_witness :
    Valid ⟨2025, 1, 1, 10, 45, 30, 0⟩ ∧
    validTrigger ⟨.daily, some ⟨9, 0, 0⟩, none, none, none⟩ = true ∧
    (⟨.daily, some ⟨9, 0, 0⟩, none, none, none⟩ : ActionTriggerConfig).type ≠ .event ∧
    ∃ next,
      computeNextRun ⟨.daily, some ⟨9, 0, 0⟩, none, none, none⟩
          ⟨2025, 1, 1, 10, 45, 30, 0⟩ = some next ∧
      toTicks ⟨2025, 1, 1, 10, 45, 30, 0⟩ < toTicks next :=
  ⟨by decide, by decide, by decide,
    C1_next_run_strictly_future ⟨.daily, some ⟨9, 0, 0⟩, none, none, none⟩
      ⟨2025, 1, 1, 10, 45, 30, 0⟩ (by decide) (by decide) (by decide)⟩

/-- C2: for snapshots with unique keys, the diff emits per path exactly one
Created record (path new only), one Modified record (path in both,
`(mtime, size)` differs), one Deleted record (path old only), and nothing for
a path present in both with equal `(mtime, size)`. -/
theorem C2_diff_exact_records (old new : Snapshot) (ho : NodupKeys old)
    (hn : NodupKeys new) (p : String) :
    (diffSnapshots old new).filter (fun ev => ev.path == p) =
      (match snapLookup new p, snapLookup old p with
       | some v, none =>
           [{ eventType := .created, path := p, size := some v.2, mtime := some v.1 }]
       | some v, some ov =>
           if ov.1 ≠ v.1 ∨ ov.2 ≠ v.2 then
             [{ eventType := .modified, path := p, size := some v.2, mtime := some v.1 }]
           else []
       | none, some ov =>
           [{ eventType := .deleted, path := p, size := some ov.2, mtime := some ov.1 }]
       | none, none => []) :=
  diff_filter_path old new ho hn p

theorem C2_witness :
    NodupKeys [("a.txt", (1, 10)), ("c.txt", (5, 5))] ∧
    NodupKeys [("a.txt", (1, 20)), ("b.txt", (2, 5))] ∧
    (diffSnapshots [("a.txt", (1, 10)), ("c.txt", (5, 5))]
        [("a.txt", (1, 20)), ("b.txt", (2, 5))]).filter
          (fun ev => ev.path == "a.txt") =
      [{ eventType := .modified, path := "a.txt", size := some 20, mtime := some 1 }] :=
  ⟨by decide, by decide,
    (C2_diff_exact_records [("a.txt", (1, 10)), ("c.txt", (5, 5))]
      [("a.txt", (1, 20)), ("b.txt", (2, 5))] (by decide) (by decide) "a.txt").trans
        (by decide)⟩

/-- C9: diffing a snapshot against itself yields the empty change set. -/
theorem C9_diff_self_empty (s : Snapshot) (h : NodupKeys s) :
    diffSnapshots s s = [] :=
  diffSnapshots_self_eq_nil s h

theorem C9_witness :
    NodupKeys [("a.txt", (1, 10)), ("b.txt", (2, 5))] ∧
    diffSnapshots [("a.txt", (1, 10)), ("b.txt", (2, 5))]
      [("a.txt", (1, 10)), ("b.txt", (2, 5))] = [] :=
  ⟨by decide, C9_diff_self_empty [("a.txt", (1, 10)), ("b.txt", (2, 5))] (by decide)⟩

/-- C10: for any two snapshots with unique keys, the diff contains at most one
change record per path — no path ever yields two records. -/
theorem C10_at_most_one_record_per_path (old new : Snapshot) (ho : NodupKeys old)
    (hn : NodupKeys new) (p : String) :
    ((diffSnapshots old new).filter (fun ev => ev.path == p)).length ≤ 1 := by
  rw [diff_filter_path old new ho hn p]
  rcases snapLookup new p with _ | v <;> rcases snapLookup old p with _ | ov
  · simp
  · simp
  · simp
  · dsimp only
    split <;> simp

theorem C10_witness :
    NodupKeys [("a.txt", (1, 10)), ("c.txt", (5, 5))] ∧
    NodupKeys [("a.txt", (1, 20)), ("b.txt", (2, 5))] ∧
    ((diffSnapshots [("a.txt", (1, 10)), ("c.txt", (5, 5))]
        [("a.txt", (1, 20)), ("b.txt", (2, 5))]).filter
          (fun ev => ev.path == "c.txt")).length ≤ 1 :=
  ⟨by decide, by decide,
    C10_at_most_one_record_per_path [("a.txt", (1, 10)), ("c.txt", (5, 5))]
      [("a.txt", (1, 20)), ("b.txt", (2, 5))] (by decide) (by decide) "c.txt"⟩

/-- C3: dispatch isolates callback failures.  Scheduled dispatch processes
each action independently of the others' outcomes (first conjunct); in
particular, with two time-triggered actions due at the same instant whose
first callback raises, both actions are invoked in order, the raised
exception is recorded (not propagated), and both actions' `next_run_at`
still advance strictly past `now`. -/
theorem C3_callback_failure_isolated (a1 a2 : MAction) (e : String)
    (now : DateTime) (root : String) (snap : Snapshot) (t1 t2 : DateTime)
    (hv : Valid now)
    (hvt1 : validTrigger a1.trigger = true) (hvt2 : validTrigger a2.trigger = true)
    (h1e : isEventTrigger a1 = false) (h2e : isEventTrigger a2 = false)
    (h1t : a1.nextRunAt = some t1) (h1due : toTicks t1 ≤ toTicks now)
    (h2t : a2.nextRunAt = some t2) (h2due : toTicks t2 ≤ toTicks now)
    (hraise : ∀ ctx opts, a1.callback ctx opts = Except.error e) :
    (∀ acts : List MAction,
        (dispatchScheduled acts now root snap).2 =
          (acts.filter (fun a => ! isEventTrigger a)).flatMap
            (fun a => (stepScheduled now root snap a).2)) ∧
    (dispatchScheduled [a1, a2] now root snap).2.map Prod.fst = [a1.name, a2.name] ∧
    ((dispatchScheduled [a1, a2] now root snap).2.map Prod.snd).head? =
      some (Except.error e) ∧
    ∀ b ∈ (dispatchScheduled [a1, a2] now root snap).1,
      ∃ next, b.nextRunAt = some next ∧ toTicks now < toTicks next := by
  have s1 := stepScheduled_due now root snap a1 t1 h1t h1due
  have s2 := stepScheduled_due now root snap a2 t2 h2t h2due
  have hd := dispatchScheduled_eq [a1, a2] now root snap
  have hfil : ([a1, a2].filter (fun a => ! isEventTrigger a)) = [a1, a2] := by
    simp [List.filter, h1e, h2e]
  obtain ⟨n1, hrun1, hgt1⟩ := computeNextRun_after_epsilon a1.trigger now hv hvt1
    (isEventTrigger_false_ne a1 h1e)
  obtain ⟨n2, hrun2, hgt2⟩ := computeNextRun_after_epsilon a2.trigger now hv hvt2
    (isEventTrigger_false_ne a2 h2e)
  refine ⟨fun acts => by rw [dispatchScheduled_eq], ?_, ?_, ?_⟩
  · rw [hd, hfil]
    simp [s1, s2]
  · rw [hd, hfil]
    simp [s1, s2, safeInvoke, hraise]
  · rw [hd, hfil]
    intro b hb
    simp only [List.map_cons, List.map_nil, s1, s2, List.mem_cons,
      List.not_mem_nil, or_false] at hb
    rcases hb with hb | hb
    · subst hb
      exact ⟨n1, by simpa using hrun1, hgt1⟩
    · subst hb
      exact ⟨n2, by simpa using hrun2, hgt2⟩

/-- C4: after a due time-triggered action's dispatch attempt (whatever the
callback outcome — the callback result is immaterial to the update), its
`previous_snapshot` is the current snapshot and its `next_run_at` is
recomputed from `now + 1s`, hence strictly after `now`; re-running the loop
body at the same instant fires nothing.  `dispatch_scheduled` applies this
loop body to every scheduled action. -/
theorem C4_due_action_state_update (now : DateTime) (root : String)
    (snap : Snapshot) (a : MAction) (t : DateTime) (hv : Valid now)
    (hvt : validTrigger a.trigger = true) (hne : isEventTrigger a = false)
    (ht : a.nextRunAt = some t) (hdue : toTicks t ≤ toTicks now) :
    ((stepScheduled now root snap a).1.previousSnapshot = some snap) ∧
    ((stepScheduled now root snap a).1.nextRunAt =
      computeNextRun a.trigger (addSeconds now 1)) ∧
    (∃ next, (stepScheduled now root snap a).1.nextRunAt = some next ∧
      toTicks now < toTicks next) ∧
    (stepScheduled now root snap (stepScheduled now root snap a).1 =
      ((stepScheduled now root snap a).1, [])) ∧
    (∀ acts : List MAction, (dispatchScheduled acts now root snap).1 =
      (acts.filter (fun x => ! isEventTrigger x)).map
        (fun x => (stepScheduled now root snap x).1)) := by
  have hstep := stepScheduled_due now root snap a t ht hdue
  obtain ⟨next, hrun, hgt⟩ := computeNextRun_after_epsilon a.trigger now hv hvt
    (isEventTrigger_false_ne a hne)
  refine ⟨by simp [hstep], by simp [hstep], ⟨next, by simp [hstep, hrun], hgt⟩,
    ?_, fun acts => by rw [dispatchScheduled_eq]⟩
  rw [hstep]
  exact stepScheduled_not_due now root snap _ next hrun hgt

/-- C8: event dispatch with no event-triggered actions is a no-op; otherwise
one shared context — carrying the triggering event and an empty
changes-since-last-run list — is passed to every event-triggered action. -/
theorem C8_dispatch_event_shared_context (actions : List MAction)
    (event : FileEvent) (root : String) (snap : Snapshot) :
    ((actions.filter isEventTrigger).isEmpty = true →
      dispatchEvent actions event root snap = []) ∧
    ((actions.filter isEventTrigger).isEmpty = false →
      ∃ ctx : ActionContext, ctx.rootPath = root ∧ ctx.snapshot = snap ∧
        ctx.event = some event ∧ ctx.modifiedEvents = [] ∧
        dispatchEvent actions event root snap =
          (actions.filter isEventTrigger).map (fun a => (a.name, safeInvoke a ctx))) := by
  constructor
  · intro h
    simp [dispatchEvent, h]
  · intro h
    refine ⟨{ rootPath := root, snapshot := snap, event := some event },
      rfl, rfl, rfl, rfl, ?_⟩
    simp [dispatchEvent, h]

theorem C3_witness :
    Valid witnessNow ∧
    validTrigger witnessAction1.trigger = true ∧
    isEventTrigger witnessAction1 = false ∧
    witnessAction1.nextRunAt = some witnessNow ∧
    toTicks witnessNow ≤ toTicks witnessNow ∧
    (dispatchScheduled [witnessAction1, witnessAction2] witnessNow "/data"
        witnessSnap).2.map Prod.fst = ["first", "second"] ∧
    ((dispatchScheduled [witnessAction1, witnessAction2] witnessNow "/data"
        witnessSnap).2.map Prod.snd).head? = some (Except.error "boom") :=
  ⟨by decide, by decide, by decide, rfl, by decide,
    (C3_callback_failure_isolated witnessAction1 witnessAction2 "boom"
      witnessNow "/data" witnessSnap witnessNow witnessNow
      (by decide) (by decide) (by decide) (by decide) (by decide)
      rfl (by decide) rfl (by decide) (fun _ _ => rfl)).2.1,
    (C3_callback_failure_isolated witnessAction1 witnessAction2 "boom"
      witnessNow "/data" witnessSnap witnessNow witnessNow
      (by decide) (by decide) (by decide) (by decide) (by decide)
      rfl (by decide) rfl (by decide) (fun _ _ => rfl)).2.2.1⟩

theorem C4_witness :
    Valid witnessNow ∧
    validTrigger witnessAction2.trigger = true ∧
    isEventTrigger witnessAction2 = false ∧
    witnessAction2.nextRunAt = some witnessNow ∧
    toTicks witnessNow ≤ toTicks witnessNow ∧
    (stepScheduled witnessNow "/data" witnessSnap witnessAction2).1.previousSnapshot
      = some witnessSnap ∧
    (stepScheduled witnessNow "/data" witnessSnap witnessAction2).1.nextRunAt =
      computeNextRun witnessAction2.trigger (addSeconds witnessNow 1) :=
  ⟨by decide, by decide, by decide, rfl, by decide,
    (C4_due_action_state_update witnessNow "/data" witnessSnap witnessAction2
      witnessNow (by decide) (by decide) (by decide) rfl (by decide)).1,
    (C4_due_action_state_update witnessNow "/data" witnessSnap witnessAction2
      witnessNow (by decide) (by decide) (by decide) rfl (by decide)).2.1⟩

/-- C5 counterexample: with root `/data` (roots are always absolute after
configuration resolution) and the file `sub/x.tmp` below it, the exclude
glob `sub/*.tmp` matches the file's root-relative path, so by the claim the
file must be skipped; but `_matches_patterns` receives `str(path)`
(`/data/sub/x.tmp`), which the glob does not match, and neither does the bare
filename `x.tmp`, so the scan keeps the file. -/
theorem C5_counterexample :
    fnmatchSimple "sub/x.tmp" "sub/*.tmp" = true ∧
    fnmatchSimple "x.tmp" "sub/*.tmp" = false ∧
    scanKeepsSpecRelative fnmatchSimple "sub/x.tmp" [] ["sub/*.tmp"] = false ∧
    scanKeeps fnmatchSimple "/data" "sub/x.tmp" [] ["sub/*.tmp"] = true := by
  refine ⟨by decide, by decide, by decide, by decide⟩

/-- C5 (amended): the scanner filter applies exclusion first — a file whose
scanned path string (the root-joined path the walk produced) or bare filename
matches any exclude glob is skipped regardless of the include globs — then
inclusion: with include globs configured the file must match one of them by
scanned path or filename, and with none configured every non-excluded file
passes. -/
theorem C5_filter_order_amended (fnm : String → String → Bool)
    (root rel : String) (incl excl : List String) :
    scanKeeps fnm root rel incl excl =
      (!(excl.any (fun pat => fnm (pathName (root ++ "/" ++ rel)) pat
            || fnm (root ++ "/" ++ rel) pat))
        && (incl.isEmpty
            || incl.any (fun pat => fnm (pathName (root ++ "/" ++ rel)) pat
                || fnm (root ++ "/" ++ rel) pat))) := by
  simp only [scanKeeps, matchesPatterns]
  cases excl with
  | nil => cases incl <;> simp
  | cons e es =>
      cases hA : (e :: es).any (fun pat => fnm (pathName (root ++ "/" ++ rel)) pat
          || fnm (root ++ "/" ++ rel) pat) <;> cases incl <;> simp [hA]

/-- C6: the Monthly target day is clamped to the last day of the target month
(first conjunct, for every year/month/day/time); concretely, a Monthly
`day=31` trigger advancing out of 2025-01-31 13:00 re-clamps for February of
the non-leap year 2025 and resolves to February 28 12:00. -/
theorem C6_monthly_day_clamped :
    (∀ (year month day : Nat) (tod : TimeOfDay),
        (clampedMonthDatetime year month day tod).day
          = min day (daysInMonth year month)) ∧
    isLeap 2025 = false ∧
    daysInMonth 2025 2 = 28 ∧
    computeNextRun ⟨.monthly, some ⟨12, 0, 0⟩, none, some 31, none⟩
        ⟨2025, 1, 31, 13, 0, 0, 0⟩
      = some ⟨2025, 2, 28, 12, 0, 0, 0⟩ :=
  ⟨fun _ _ _ _ => rfl, by decide, by decide, by decide⟩

/-- C7: the Weekly next run is the daily-style candidate shifted forward by
`(target_weekday − candidate_weekday) mod 7` days, plus 7 more days when not
strictly after the reference (first conjunct); concretely, for
`weekday=Wednesday` (2), `time=09:00` and a reference on Wednesday
2025-01-01 at 23:00, the next run is the following Wednesday 2025-01-08
09:00, not the same day. -/
theorem C7_weekly_next_run :
    (∀ (tod : TimeOfDay) (w : Nat) (r : DateTime),
        computeNextRun ⟨.weekly, some tod, some w, none, none⟩ r =
          (let base := setTimeOfDay r tod
           let daysAhead := (((w : Int) - (pyWeekday base : Int)) % 7).toNat
           let candidate := addDays base daysAhead
           some (if toTicks candidate ≤ toTicks r then addDays candidate 7
                 else candidate))) ∧
    pyWeekday ⟨2025, 1, 1, 23, 0, 0, 0⟩ = 2 ∧
    pyWeekday ⟨2025, 1, 8, 9, 0, 0, 0⟩ = 2 ∧
    computeNextRun ⟨.weekly, some ⟨9, 0, 0⟩, some 2, none, none⟩
        ⟨2025, 1, 1, 23, 0, 0, 0⟩
      = some ⟨2025, 1, 8, 9, 0, 0, 0⟩ :=
  ⟨fun _ _ _ => rfl, by decide, by decide, by decide⟩

end Prepreproc
